import Mathlib

/-!
# Verification of the view-line renderer

A shallow embedding of `src/vs/editor/common/viewLayout/viewLineRenderer.ts`
(the character-by-character line renderer of the editor) together with proofs
of the specified properties.

Modelling conventions:
* JS strings are modelled as `List Char` for the line content (`charCodeAt i`
  becomes `charCodeAt`, i.e. `Char.toNat` of the character at `i`), and as
  Lean `String` for the produced markup.
* JS numbers holding non-negative integers are `Nat`; `stopRenderingLineAfter`
  and the derived `charBreakIndex` are `Int` because `-1` is a sentinel and
  `stopRenderingLineAfter - 1` may be negative.
* The early `return` inside the rendering loops is modelled with `Except`:
  `Except.error` carries the truncated result, `Except.ok` the state at the
  normal end of a loop.
* The `throw new Error(...)` of `renderLine` is the `Except.error` of the
  top-level function.
-/

/-- `renderWhitespace` option: `'none' | 'boundary' | 'all'`. -/
inductive RenderWhitespace where
  | none
  | boundary
  | all
deriving BEq, DecidableEq

/-- A styling part (`ViewLineToken`): a start offset into the line plus an
opaque category label. -/
structure ViewLineToken where
  startIndex : Nat
  type : String
deriving DecidableEq

/-- The immutable render request (`RenderLineInput`). -/
structure RenderLineInput where
  lineContent : List Char
  tabSize : Nat
  spaceWidth : Nat
  stopRenderingLineAfter : Int
  renderWhitespace : RenderWhitespace
  renderHardSpace : Bool
  renderControlCharacters : Bool
  parts : List ViewLineToken
deriving DecidableEq

/-- The immutable render result (`RenderLineOutput`). -/
structure RenderLineOutput where
  charOffsetInPart : List Nat
  lastRenderedPartIndex : Nat
  output : String
deriving DecidableEq

/-- Substring test on character lists (JS `s.indexOf(sub) >= 0`). -/
def containsSubstring (s sub : List Char) : Bool :=
  s.tails.any fun t => sub.isPrefixOf t

/-- `isWhitespace`: the part category label contains the substring
`"whitespace"`. -/
def isWhitespace (type : String) : Bool :=
  containsSubstring type.toList "whitespace".toList

/-- `isControlCharacter`: the code point is below 32. -/
def isControlCharacter (characterCode : Nat) : Bool :=
  characterCode < 32

/-- `_controlCharacterSequenceConversionStart = 9216` (start of the Unicode
control-pictures block). -/
def controlCharacterSequenceConversionStart : Nat := 9216

/-- `controlCharacterToPrintable`: `String.fromCharCode(9216 + code)`. -/
def controlCharacterToPrintable (characterCode : Nat) : String :=
  (Char.ofNat (controlCharacterSequenceConversionStart + characterCode)).toString

/-- `lineText.charCodeAt(i)` (always called in range by the renderer). -/
def charCodeAt (s : List Char) (i : Nat) : Nat :=
  (s.getD i (Char.ofNat 0)).toNat

/-- `lineText.charAt(i)` as a one-character string. -/
def charAt (s : List Char) (i : Nat) : String :=
  (s.getD i (Char.ofNat 0)).toString

/-- `n` copies of `'&nbsp;'` (the non-breaking-space entity), as emitted by
the `while (insertSpacesCount > 0)` loops. -/
def nbspRepeat : Nat → String
  | 0 => ""
  | n + 1 => "&nbsp;" ++ nbspRepeat n

/-- The tab run length `insertSpacesCount = tabSize - (charIndex + tabsCharDelta) % tabSize`. -/
def insertSpacesCount (tabSize charIndex tabsCharDelta : Nat) : Nat :=
  tabSize - (charIndex + tabsCharDelta) % tabSize

/-- One character of the plain (non-whitespace-rendering) branch: the string
appended to `out` and the amount (`insertSpacesCount - 1` for a tab, else `0`)
added to both `tabsCharDelta` and `charOffsetInPart`. -/
def renderPlainChar (lineText : List Char) (tabSize : Nat)
    (renderHardSpace renderControlCharacters : Bool)
    (charIndex tabsCharDelta : Nat) : String × Nat :=
  let charCode := charCodeAt lineText charIndex
  if charCode = 9 then
    let cnt := insertSpacesCount tabSize charIndex tabsCharDelta
    (nbspRepeat cnt, cnt - 1)
  else if charCode = 32 then ("&nbsp;", 0)
  else if charCode = 60 then ("&lt;", 0)
  else if charCode = 62 then ("&gt;", 0)
  else if charCode = 38 then ("&amp;", 0)
  else if charCode = 0 then ("&#00;", 0)
  else if charCode = 65279 ∨ charCode = 8232 then ("�", 0)
  else if charCode = 160 then
    (if renderHardSpace then "&middot;" else charAt lineText charIndex, 0)
  else if charCode = 13 then ("&#8203", 0)
  else if renderControlCharacters && isControlCharacter charCode then
    (controlCharacterToPrintable charCode, 0)
  else (charAt lineText charIndex, 0)

/-- One character of the whitespace-rendering branch: the string appended to
`partContent`, the number of glyphs it contains (added to `partContentCnt`),
and the amount added to both `tabsCharDelta` and `charOffsetInPart`. -/
def renderWsChar (lineText : List Char) (tabSize : Nat)
    (charIndex tabsCharDelta : Nat) : String × Nat × Nat :=
  let charCode := charCodeAt lineText charIndex
  if charCode = 9 then
    let cnt := insertSpacesCount tabSize charIndex tabsCharDelta
    (if 0 < cnt then "&rarr;" ++ nbspRepeat (cnt - 1) else "", cnt, cnt - 1)
  else ("&middot;", 1, 0)

/-- The parameters of `renderLineActual` that stay fixed during its loops. -/
structure RCtx where
  lineText : List Char
  lineTextLength : Nat
  tabSize : Nat
  spaceWidth : Nat
  renderWhitespace : RenderWhitespace
  renderHardSpace : Bool
  renderControlCharacters : Bool
  charBreakIndex : Int

/-- The mutable locals of `renderLineActual`. -/
structure RState where
  charIndex : Nat
  charOffsetInPart : Nat
  tabsCharDelta : Nat
  arr : List Nat
  out : String

/-- The opening tag of a whitespace-rendered part, carrying the computed
pixel width `spaceWidth * partContentCnt`. -/
def wsSpanHeader (partType : String) (spaceWidth partContentCnt : Nat) : String :=
  "<span class=\"token " ++ partType ++ "\" style=\"width:" ++
    Nat.repr (spaceWidth * partContentCnt) ++ "px\">"

/-- The inner `for` loop of the plain branch, running over the next `fuel`
characters starting at `st.charIndex`.  `Except.error` is the early return on
truncation, carrying the final `out` and `charOffsetInPartArr` (the entry at
the truncation index is the overwritten, post-character offset). -/
def renderPlainLoop (ctx : RCtx) : Nat → RState → Except (String × List Nat) RState
  | 0, st => Except.ok st
  | fuel + 1, st =>
    let entry := st.charOffsetInPart
    let ec := renderPlainChar ctx.lineText ctx.tabSize ctx.renderHardSpace
      ctx.renderControlCharacters st.charIndex st.tabsCharDelta
    let out2 := st.out ++ ec.1
    let tabs2 := st.tabsCharDelta + ec.2
    let off2 := st.charOffsetInPart + ec.2 + 1
    if (st.charIndex : Int) ≥ ctx.charBreakIndex then
      Except.error (out2 ++ "&hellip;</span></span>", st.arr ++ [off2])
    else
      renderPlainLoop ctx fuel
        { charIndex := st.charIndex + 1, charOffsetInPart := off2,
          tabsCharDelta := tabs2, arr := st.arr ++ [entry], out := out2 }

/-- The inner `for` loop of the whitespace branch; `pc`/`cnt` are the buffered
`partContent` and `partContentCnt`.  On truncation the wrapper tag with the
computed width, the buffer and the ellipsis are assembled into `out`. -/
def renderWsLoop (ctx : RCtx) (partType : String) :
    Nat → RState → String → Nat → Except (String × List Nat) (RState × String × Nat)
  | 0, st, pc, cnt => Except.ok (st, pc, cnt)
  | fuel + 1, st, pc, cnt =>
    let entry := st.charOffsetInPart
    let ec := renderWsChar ctx.lineText ctx.tabSize st.charIndex st.tabsCharDelta
    let pc2 := pc ++ ec.1
    let cnt2 := cnt + ec.2.1
    let tabs2 := st.tabsCharDelta + ec.2.2
    let off2 := st.charOffsetInPart + ec.2.2 + 1
    if (st.charIndex : Int) ≥ ctx.charBreakIndex then
      Except.error
        (st.out ++ wsSpanHeader partType ctx.spaceWidth cnt2 ++ pc2 ++
          "&hellip;</span></span>", st.arr ++ [off2])
    else
      renderWsLoop ctx partType fuel
        { charIndex := st.charIndex + 1, charOffsetInPart := off2,
          tabsCharDelta := tabs2, arr := st.arr ++ [entry], out := st.out }
        pc2 cnt2

/-- The outer `for` loop of `renderLineActual` over the parts; `partIndex` is
the index of the first part of the list in the original part array.
`Except.error` carries `(partIndex, out, charOffsetInPartArr)` of a truncated
return. -/
def renderPartsLoop (ctx : RCtx) :
    List ViewLineToken → Nat → RState → Except (Nat × String × List Nat) RState
  | [], _, st => Except.ok st
  | part :: rest, partIndex, st =>
    let toCharIndex := match rest with
      | [] => ctx.lineTextLength
      | next :: _ => min ctx.lineTextLength next.startIndex
    let st1 : RState := { st with charOffsetInPart := 0 }
    if (ctx.renderWhitespace != RenderWhitespace.none) && isWhitespace part.type then
      match renderWsLoop ctx part.type (toCharIndex - st1.charIndex) st1 "" 0 with
      | Except.error e => Except.error (partIndex, e.1, e.2)
      | Except.ok (st2, pc, cnt) =>
        renderPartsLoop ctx rest (partIndex + 1)
          { st2 with out := st2.out ++ wsSpanHeader part.type ctx.spaceWidth cnt ++
              pc ++ "</span>" }
    else
      let st1b : RState :=
        { st1 with out := st1.out ++ "<span class=\"token " ++ part.type ++ "\">" }
      match renderPlainLoop ctx (toCharIndex - st1b.charIndex) st1b with
      | Except.error e => Except.error (partIndex, e.1, e.2)
      | Except.ok st2 =>
        renderPartsLoop ctx rest (partIndex + 1) { st2 with out := st2.out ++ "</span>" }

/-- `renderLineActual`. -/
def renderLineActual (lineText : List Char) (lineTextLength tabSize spaceWidth : Nat)
    (actualLineParts : List ViewLineToken) (renderWhitespace : RenderWhitespace)
    (renderHardSpace renderControlCharacters : Bool) (charBreakIdx : Int) :
    RenderLineOutput :=
  let ctx : RCtx := ⟨lineText, lineTextLength, tabSize, spaceWidth, renderWhitespace,
    renderHardSpace, renderControlCharacters, charBreakIdx⟩
  match renderPartsLoop ctx actualLineParts 0
      { charIndex := 0, charOffsetInPart := 0, tabsCharDelta := 0, arr := [],
        out := "<span>" } with
  | Except.error e => ⟨e.2.2, e.1, e.2.1⟩
  | Except.ok st =>
    ⟨st.arr ++ [st.charOffsetInPart], actualLineParts.length - 1, st.out ++ "</span>"⟩

/-- The 0-based break index:
`(input.stopRenderingLineAfter === -1 ? lineTextLength : input.stopRenderingLineAfter - 1)`. -/
def charBreakIndex (stopRenderingLineAfter : Int) (lineTextLength : Nat) : Int :=
  if stopRenderingLineAfter = -1 then (lineTextLength : Int)
  else stopRenderingLineAfter - 1

/-- `renderLine`: the empty-line special case, the fail-fast check on an empty
part list, and the call into `renderLineActual`. -/
def renderLine (input : RenderLineInput) : Except String RenderLineOutput :=
  let lineText := input.lineContent
  let lineTextLength := lineText.length
  if lineTextLength = 0 then
    Except.ok ⟨[], 0, "<span><span>&nbsp;</span></span>"⟩
  else if input.parts.length = 0 then
    Except.error "Cannot render non empty line without line parts!"
  else
    Except.ok (renderLineActual lineText lineTextLength input.tabSize input.spaceWidth
      input.parts input.renderWhitespace input.renderHardSpace
      input.renderControlCharacters
      (charBreakIndex input.stopRenderingLineAfter lineTextLength))

deriving instance DecidableEq for Except

/-- A markup string is free of literal carriage returns. -/
def CRfreeS (s : String) : Prop := ¬ '\r' ∈ s.data

/-- The character index at which the `i`-th of the parts `ps` starts
rendering, when rendering begins at character `c0`: the first part starts at
the current cursor, every later part at its own (clamped) `startIndex`. -/
def segStart (len : Nat) (ps : List ViewLineToken) (c0 i : Nat) : Nat :=
  if i = 0 then c0 else min len ((ps.getD i ⟨0, ""⟩).startIndex)

/-- The character index at which the `i`-th of the parts `ps` stops
rendering: the clamped `startIndex` of the next part, or `len` for the last
part. -/
def segEnd (len : Nat) (ps : List ViewLineToken) (i : Nat) : Nat :=
  if i + 1 < ps.length then min len ((ps.getD (i + 1) ⟨0, ""⟩).startIndex)
  else len

/-- The slice of the offset table belonging to the `i`-th segment. -/
def segBlock (len : Nat) (ps : List ViewLineToken) (c0 i : Nat)
    (table : List Nat) : List Nat :=
  (table.drop (segStart len ps c0 i)).take (segEnd len ps i - segStart len ps c0 i)

/-! ## Claim theorems -/

/-- Claim C1: with truncation enabled the break index is
`truncateAfterColumn - 1` (`text.length` when disabled, i.e. when
`stopRenderingLineAfter = -1`), and rendering stops right after processing the
character at the break index: with `truncateAfterColumn = 3` on a 10-character
single-segment line the markup ends in the ellipsis marker,
`lastRenderedPartIndex` is that segment's index and the offset table has
exactly 3 entries (indices 0, 1, 2). -/
theorem claim_C1 :
    (∀ (stop : Int) (len : Nat), stop ≠ -1 → charBreakIndex stop len = stop - 1) ∧
    (∀ len : Nat, charBreakIndex (-1) len = (len : Int)) ∧
    renderLine ⟨"aaaaaaaaaa".toList, 4, 1, 3, RenderWhitespace.none, false, false,
        [⟨0, "plain"⟩]⟩ =
      Except.ok ⟨[0, 1, 3], 0,
        "<span><span class=\"token plain\">aaa&hellip;</span></span>"⟩ := by
  refine ⟨fun stop len h => ?_, fun len => ?_, by decide⟩
  · simp [charBreakIndex, h]
  · simp [charBreakIndex]

/-- Witness for C1 at `stopRenderingLineAfter = 3`, `text.length = 10`. -/
theorem claim_C1_witness : charBreakIndex 3 10 = 3 - 1 :=
  claim_C1.1 3 10 (by decide)

/-- Claim C2: `renderLine` fails (returns an error) if and only if the part
list is empty while the line text is non-empty; every other input produces a
well-defined, non-error result. -/
theorem claim_C2 (input : RenderLineInput) :
    (∃ e, renderLine input = Except.error e) ↔
      (input.parts = [] ∧ input.lineContent ≠ []) := by
  rcases h0 : input.lineContent with _ | ⟨c, cs⟩
  · simp [renderLine, h0]
  · rcases hp : input.parts with _ | ⟨p, ps⟩
    · simp [renderLine, h0, hp]
    · simp [renderLine, h0, hp]

/-- Claim C3: the tab run length is
`tabSize - ((charIndex + tabsCharDelta) % tabSize)`, computed on the visual
column; whenever `tabSize ≥ 1` it satisfies `1 ≤ run ≤ tabSize`; both
rendering branches expand a tab by exactly this run; and on `"\tA"` with
`tabSize = 4` the offset table entry for index 0 is 0 and for index 1 is 4. -/
theorem claim_C3 :
    (∀ tabSize charIndex tabsCharDelta : Nat, 1 ≤ tabSize →
      1 ≤ insertSpacesCount tabSize charIndex tabsCharDelta ∧
        insertSpacesCount tabSize charIndex tabsCharDelta ≤ tabSize) ∧
    (∀ (lineText : List Char) (tabSize : Nat) (rhs rcc : Bool)
        (charIndex tabsCharDelta : Nat),
      charCodeAt lineText charIndex = 9 →
      renderPlainChar lineText tabSize rhs rcc charIndex tabsCharDelta =
        (nbspRepeat (insertSpacesCount tabSize charIndex tabsCharDelta),
          insertSpacesCount tabSize charIndex tabsCharDelta - 1)) ∧
    (∀ (lineText : List Char) (tabSize charIndex tabsCharDelta : Nat),
      charCodeAt lineText charIndex = 9 → 1 ≤ tabSize →
      renderWsChar lineText tabSize charIndex tabsCharDelta =
        ("&rarr;" ++ nbspRepeat (insertSpacesCount tabSize charIndex tabsCharDelta - 1),
          insertSpacesCount tabSize charIndex tabsCharDelta,
          insertSpacesCount tabSize charIndex tabsCharDelta - 1)) ∧
    renderLine ⟨"\tA".toList, 4, 1, -1, RenderWhitespace.none, false, false,
        [⟨0, "plain"⟩]⟩ =
      Except.ok ⟨[0, 4, 5], 0,
        "<span><span class=\"token plain\">&nbsp;&nbsp;&nbsp;&nbsp;A</span></span>"⟩ := by
  have hbound : ∀ tabSize charIndex tabsCharDelta : Nat, 1 ≤ tabSize →
      1 ≤ insertSpacesCount tabSize charIndex tabsCharDelta ∧
        insertSpacesCount tabSize charIndex tabsCharDelta ≤ tabSize := by
    intro tabSize charIndex tabsCharDelta h
    have hr : (charIndex + tabsCharDelta) % tabSize < tabSize :=
      Nat.mod_lt _ (by omega)
    unfold insertSpacesCount
    omega
  refine ⟨hbound, fun lineText tabSize rhs rcc charIndex tabsCharDelta h => ?_,
    fun lineText tabSize charIndex tabsCharDelta h ht => ?_, by decide⟩
  · simp [renderPlainChar, h]
  · have h1 : 0 < insertSpacesCount tabSize charIndex tabsCharDelta :=
      (hbound tabSize charIndex tabsCharDelta ht).1
    simp [renderWsChar, h, h1]

/-- Witness for C3 at `tabSize = 4`, visual column 0. -/
theorem claim_C3_witness :
    1 ≤ insertSpacesCount 4 0 0 ∧ insertSpacesCount 4 0 0 ≤ 4 :=
  claim_C3.1 4 0 0 (by decide)

/-- Claim C5: a zero-length line yields the fixed nested-span markup, an empty
offset table and `lastRenderedPartIndex = 0`, regardless of every other
option. -/
theorem claim_C5 (input : RenderLineInput) (h : input.lineContent = []) :
    renderLine input = Except.ok ⟨[], 0, "<span><span>&nbsp;</span></span>"⟩ := by
  simp [renderLine, h]

/-- Witness for C5: the empty line with an empty part list and unusual
options. -/
theorem claim_C5_witness :
    renderLine ⟨[], 1, 1, 0, RenderWhitespace.all, true, true, []⟩ =
      Except.ok ⟨[], 0, "<span><span>&nbsp;</span></span>"⟩ :=
  claim_C5 ⟨[], 1, 1, 0, RenderWhitespace.all, true, true, []⟩ rfl

/-- Claim C6: in a plain segment `<`, `&`, `>` become their HTML entities and
other printable characters pass through: `"<a&b>"` renders to the entity forms
with raw `a`, `b`, and the offset table has one entry per character plus one
trailing entry (6 entries). -/
theorem claim_C6 :
    renderLine ⟨"<a&b>".toList, 4, 1, -1, RenderWhitespace.none, false, false,
        [⟨0, "plain"⟩]⟩ =
      Except.ok ⟨[0, 1, 2, 3, 4, 5], 0,
        "<span><span class=\"token plain\">&lt;a&amp;b&gt;</span></span>"⟩ := by
  decide

/-- Claim C7: with whitespace rendering enabled, a whitespace-category segment
holding a single space renders the space as a middle-dot glyph and its wrapper
tag carries the pixel width `spaceWidth * 1`. -/
theorem claim_C7 (spaceWidth : Nat) :
    renderLine ⟨[' '], 4, spaceWidth, -1, RenderWhitespace.all, false, false,
        [⟨0, "whitespace"⟩]⟩ =
      Except.ok ⟨[0, 1], 0,
        "<span>" ++ wsSpanHeader "whitespace" spaceWidth 1 ++ "&middot;" ++
          "</span>" ++ "</span>"⟩ ∧
    wsSpanHeader "whitespace" spaceWidth 1 =
      "<span class=\"token whitespace\" style=\"width:" ++
        Nat.repr (spaceWidth * 1) ++ "px\">" := by
  exact ⟨rfl, rfl⟩

/-- Claim C8: a code point below 32 without dedicated handling (not tab, NUL
or carriage return) renders in the plain branch as the control-picture glyph
at code point `source + 9216` when `renderControlCharacters` is set, and is
passed through raw otherwise. -/
theorem claim_C8 (lineText : List Char) (tabSize : Nat) (rhs : Bool)
    (charIndex tabsCharDelta c : Nat)
    (hc : charCodeAt lineText charIndex = c)
    (hlt : c < 32) (h0 : c ≠ 0) (h9 : c ≠ 9) (h13 : c ≠ 13) :
    renderPlainChar lineText tabSize rhs true charIndex tabsCharDelta =
      (controlCharacterToPrintable c, 0) ∧
    renderPlainChar lineText tabSize rhs false charIndex tabsCharDelta =
      (charAt lineText charIndex, 0) ∧
    controlCharacterToPrintable c = (Char.ofNat (9216 + c)).toString := by
  have h32 : c ≠ 32 := by omega
  have h60 : c ≠ 60 := by omega
  have h62 : c ≠ 62 := by omega
  have h38 : c ≠ 38 := by omega
  have hbom : c ≠ 65279 := by omega
  have hls : c ≠ 8232 := by omega
  have hhs : c ≠ 160 := by omega
  refine ⟨?_, ?_, rfl⟩ <;>
    simp [renderPlainChar, hc, h9, h32, h60, h62, h38, h0, hbom, hls, hhs, h13,
      isControlCharacter, hlt]

/-- Witness for C8 at code point 1 (`U+0001` renders as `U+2401`). -/
theorem claim_C8_witness :
    renderPlainChar [Char.ofNat 1] 4 false true 0 0 =
      (controlCharacterToPrintable 1, 0) ∧
    renderPlainChar [Char.ofNat 1] 4 false false 0 0 =
      (charAt [Char.ofNat 1] 0, 0) ∧
    controlCharacterToPrintable 1 = (Char.ofNat (9216 + 1)).toString :=
  claim_C8 [Char.ofNat 1] 4 false 0 0 1 (by decide) (by decide) (by decide)
    (by decide) (by decide)

/-- Counterexample to C4 as stated: on text `"ab"` with parts starting at 0
and 1 and `stopRenderingLineAfter = 2` (a valid request), truncation fires at
character index 1, which is the start of the second segment; the recorded
entry there is the post-character offset 1, not 0, so the offset table does
not reset to 0 at that segment start. -/
theorem claim_C4_counterexample :
    renderLine ⟨['a', 'b'], 4, 1, 2, RenderWhitespace.none, false, false,
        [⟨0, "x"⟩, ⟨1, "y"⟩]⟩ =
      Except.ok ⟨[0, 1], 1,
        "<span><span class=\"token x\">a</span><span class=\"token y\">b&hellip;</span></span>"⟩ ∧
    (([0, 1] : List Nat).drop 1).head? ≠ some 0 := by
  exact ⟨by decide, by decide⟩

/-- Counterexample to C9 as stated: part category labels are spliced verbatim
into the wrapper tags, so a label containing a carriage return puts a literal
carriage return into the returned markup. -/
theorem claim_C9_counterexample :
    renderLine ⟨['a'], 4, 1, -1, RenderWhitespace.none, false, false,
        [⟨0, "x\ry"⟩]⟩ =
      Except.ok ⟨[0, 1], 0, "<span><span class=\"token x\ry\">a</span></span>"⟩ ∧
    ¬ CRfreeS "<span><span class=\"token x\ry\">a</span></span>" := by
  exact ⟨by decide, by unfold CRfreeS; decide⟩

/-! ## Carriage-return freeness of emitted fragments -/

theorem CRfreeS_empty : CRfreeS "" := by unfold CRfreeS; decide

theorem CRfreeS_append {a b : String} (ha : CRfreeS a) (hb : CRfreeS b) :
    CRfreeS (a ++ b) := by
  unfold CRfreeS at ha hb ⊢
  rw [String.data_append]
  intro h
  rcases List.mem_append.mp h with h | h
  · exact ha h
  · exact hb h

theorem digitChar_ne_CR (m : Nat) : Nat.digitChar m ≠ '\r' := by
  rcases Nat.lt_or_ge m 16 with h | h
  · interval_cases m <;> decide
  · unfold Nat.digitChar
    repeat rw [if_neg (by omega)]
    decide

theorem toDigitsCore_mem (b : Nat) :
    ∀ (fuel n : Nat) (ds : List Char) (c : Char),
      c ∈ Nat.toDigitsCore b fuel n ds → c ∈ ds ∨ ∃ m, c = Nat.digitChar m := by
  intro fuel
  induction fuel with
  | zero => intro n ds c h; exact Or.inl h
  | succ f ih =>
    intro n ds c h
    unfold Nat.toDigitsCore at h
    by_cases h0 : n / b = 0
    · rw [if_pos h0] at h
      rcases List.mem_cons.mp h with h | h
      · exact Or.inr ⟨n % b, h⟩
      · exact Or.inl h
    · rw [if_neg h0] at h
      rcases ih (n / b) ((n % b).digitChar :: ds) c h with h | h
      · rcases List.mem_cons.mp h with h | h
        · exact Or.inr ⟨n % b, h⟩
        · exact Or.inl h
      · exact Or.inr h

theorem natRepr_CRfree (n : Nat) : CRfreeS (Nat.repr n) := by
  unfold CRfreeS
  intro h
  have h2 : '\r' ∈ Nat.toDigits 10 n := h
  rcases toDigitsCore_mem 10 (n + 1) n [] '\r' h2 with h3 | ⟨m, hm⟩
  · simp at h3
  · exact digitChar_ne_CR m hm.symm

theorem wsSpanHeader_CRfree {t : String} (ht : CRfreeS t) (sw cnt : Nat) :
    CRfreeS (wsSpanHeader t sw cnt) := by
  unfold wsSpanHeader
  have l1 : CRfreeS "<span class=\"token " := by unfold CRfreeS; decide
  have l2 : CRfreeS "\" style=\"width:" := by unfold CRfreeS; decide
  have l3 : CRfreeS "px\">" := by unfold CRfreeS; decide
  exact CRfreeS_append
    (CRfreeS_append (CRfreeS_append (CRfreeS_append l1 ht) l2) (natRepr_CRfree _)) l3

theorem nbspRepeat_CRfree (n : Nat) : CRfreeS (nbspRepeat n) := by
  induction n with
  | zero => exact CRfreeS_empty
  | succ m ih => exact CRfreeS_append (by unfold CRfreeS; decide) ih

theorem charAt_CRfree {lineText : List Char} {i : Nat}
    (h : charCodeAt lineText i ≠ 13) : CRfreeS (charAt lineText i) := by
  unfold CRfreeS charAt Char.toString
  intro hm
  have h1 : (String.singleton (lineText.getD i (Char.ofNat 0))).data =
      [lineText.getD i (Char.ofNat 0)] := rfl
  rw [h1] at hm
  have hc : lineText.getD i (Char.ofNat 0) = '\r' := (List.mem_singleton.mp hm).symm
  apply h
  unfold charCodeAt
  rw [hc]
  rfl

theorem ctrlPrintable_CRfree {c : Nat} (h : c < 32) :
    CRfreeS (controlCharacterToPrintable c) := by
  unfold CRfreeS
  interval_cases c <;> decide

theorem renderPlainChar_CRfree (lineText : List Char) (tabSize : Nat)
    (rhs rcc : Bool) (charIndex tabsCharDelta : Nat) :
    CRfreeS (renderPlainChar lineText tabSize rhs rcc charIndex tabsCharDelta).1 := by
  by_cases h1 : charCodeAt lineText charIndex = 9
  · have e : (renderPlainChar lineText tabSize rhs rcc charIndex tabsCharDelta).1 =
        nbspRepeat (insertSpacesCount tabSize charIndex tabsCharDelta) := by
      simp [renderPlainChar, h1]
    rw [e]; exact nbspRepeat_CRfree _
  by_cases h2 : charCodeAt lineText charIndex = 32
  · have e : (renderPlainChar lineText tabSize rhs rcc charIndex tabsCharDelta).1 =
        "&nbsp;" := by simp [renderPlainChar, h1, h2]
    rw [e]; unfold CRfreeS; decide
  by_cases h3 : charCodeAt lineText charIndex = 60
  · have e : (renderPlainChar lineText tabSize rhs rcc charIndex tabsCharDelta).1 =
        "&lt;" := by simp [renderPlainChar, h1, h2, h3]
    rw [e]; unfold CRfreeS; decide
  by_cases h4 : charCodeAt lineText charIndex = 62
  · have e : (renderPlainChar lineText tabSize rhs rcc charIndex tabsCharDelta).1 =
        "&gt;" := by simp [renderPlainChar, h1, h2, h3, h4]
    rw [e]; unfold CRfreeS; decide
  by_cases h5 : charCodeAt lineText charIndex = 38
  · have e : (renderPlainChar lineText tabSize rhs rcc charIndex tabsCharDelta).1 =
        "&amp;" := by simp [renderPlainChar, h1, h2, h3, h4, h5]
    rw [e]; unfold CRfreeS; decide
  by_cases h6 : charCodeAt lineText charIndex = 0
  · have e : (renderPlainChar lineText tabSize rhs rcc charIndex tabsCharDelta).1 =
        "&#00;" := by simp [renderPlainChar, h1, h2, h3, h4, h5, h6]
    rw [e]; unfold CRfreeS; decide
  by_cases h7 : charCodeAt lineText charIndex = 65279 ∨ charCodeAt lineText charIndex = 8232
  · have e : (renderPlainChar lineText tabSize rhs rcc charIndex tabsCharDelta).1 =
        "�" := by simp [renderPlainChar, h1, h2, h3, h4, h5, h6, h7]
    rw [e]; unfold CRfreeS; decide
  by_cases h8 : charCodeAt lineText charIndex = 160
  · have e : (renderPlainChar lineText tabSize rhs rcc charIndex tabsCharDelta).1 =
        (if rhs then "&middot;" else charAt lineText charIndex) := by
      simp [renderPlainChar, h1, h2, h3, h4, h5, h6, h7, h8]
    rw [e]
    rcases rhs with _ | _
    · simp only [Bool.false_eq_true, if_false]
      exact charAt_CRfree (by omega)
    · simp only [if_true]
      unfold CRfreeS; decide
  by_cases h9 : charCodeAt lineText charIndex = 13
  · have e : (renderPlainChar lineText tabSize rhs rcc charIndex tabsCharDelta).1 =
        "&#8203" := by simp [renderPlainChar, h1, h2, h3, h4, h5, h6, h7, h8, h9]
    rw [e]; unfold CRfreeS; decide
  by_cases h10 : (rcc && isControlCharacter (charCodeAt lineText charIndex)) = true
  · have e : (renderPlainChar lineText tabSize rhs rcc charIndex tabsCharDelta).1 =
        controlCharacterToPrintable (charCodeAt lineText charIndex) := by
      simp [renderPlainChar, h1, h2, h3, h4, h5, h6, h7, h8, h9, h10]
    rw [e]
    have hlt : charCodeAt lineText charIndex < 32 :=
      of_decide_eq_true ((Bool.and_eq_true _ _).mp h10).2
    exact ctrlPrintable_CRfree hlt
  · have e : (renderPlainChar lineText tabSize rhs rcc charIndex tabsCharDelta).1 =
        charAt lineText charIndex := by
      simp [renderPlainChar, h1, h2, h3, h4, h5, h6, h7, h8, h9, h10]
    rw [e]
    exact charAt_CRfree h9

theorem renderWsChar_CRfree (lineText : List Char) (tabSize : Nat)
    (charIndex tabsCharDelta : Nat) :
    CRfreeS (renderWsChar lineText tabSize charIndex tabsCharDelta).1 := by
  by_cases h1 : charCodeAt lineText charIndex = 9
  · by_cases h2 : 0 < insertSpacesCount tabSize charIndex tabsCharDelta
    · have e : (renderWsChar lineText tabSize charIndex tabsCharDelta).1 =
          "&rarr;" ++ nbspRepeat (insertSpacesCount tabSize charIndex tabsCharDelta - 1) := by
        simp [renderWsChar, h1, h2]
      rw [e]
      exact CRfreeS_append (by unfold CRfreeS; decide) (nbspRepeat_CRfree _)
    · have e : (renderWsChar lineText tabSize charIndex tabsCharDelta).1 = "" := by
        simp [renderWsChar, h1, h2]
      rw [e]; exact CRfreeS_empty
  · have e : (renderWsChar lineText tabSize charIndex tabsCharDelta).1 = "&middot;" := by
      simp [renderWsChar, h1]
    rw [e]; unfold CRfreeS; decide


theorem renderPlainLoop_step_cont (ctx : RCtx) {bN : Nat}
    (hb : ∀ k : Nat, ((k : Int) ≥ ctx.charBreakIndex ↔ bN ≤ k))
    (fuel ci co td : Nat) (arr : List Nat) (out : String) (h : ci < bN) :
    renderPlainLoop ctx (fuel + 1) ⟨ci, co, td, arr, out⟩ =
      renderPlainLoop ctx fuel
        ⟨ci + 1,
         co + (renderPlainChar ctx.lineText ctx.tabSize ctx.renderHardSpace
            ctx.renderControlCharacters ci td).2 + 1,
         td + (renderPlainChar ctx.lineText ctx.tabSize ctx.renderHardSpace
            ctx.renderControlCharacters ci td).2,
         arr ++ [co],
         out ++ (renderPlainChar ctx.lineText ctx.tabSize ctx.renderHardSpace
            ctx.renderControlCharacters ci td).1⟩ := by
  have hcond : ¬ (((ci : Int)) ≥ ctx.charBreakIndex) := by
    intro hge
    exact absurd ((hb ci).mp hge) (by omega)
  simp only [renderPlainLoop]
  rw [if_neg hcond]

theorem renderPlainLoop_step_trunc (ctx : RCtx) {bN : Nat}
    (hb : ∀ k : Nat, ((k : Int) ≥ ctx.charBreakIndex ↔ bN ≤ k))
    (fuel ci co td : Nat) (arr : List Nat) (out : String) (h : bN ≤ ci) :
    renderPlainLoop ctx (fuel + 1) ⟨ci, co, td, arr, out⟩ =
      Except.error
        (out ++ (renderPlainChar ctx.lineText ctx.tabSize ctx.renderHardSpace
            ctx.renderControlCharacters ci td).1 ++ "&hellip;</span></span>",
         arr ++ [co + (renderPlainChar ctx.lineText ctx.tabSize ctx.renderHardSpace
            ctx.renderControlCharacters ci td).2 + 1]) := by
  have hcond : (((ci : Int)) ≥ ctx.charBreakIndex) :=
    (hb ci).mpr h
  simp only [renderPlainLoop]
  rw [if_pos hcond]

theorem renderPlainLoop_ok (ctx : RCtx) {bN : Nat}
    (hb : ∀ k : Nat, ((k : Int) ≥ ctx.charBreakIndex ↔ bN ≤ k)) :
    ∀ (fuel ci co td : Nat) (arr : List Nat) (out : String),
      (ci + fuel ≤ bN ∨ fuel = 0) →
    ∃ (B : List Nat) (oA : String) (st' : RState),
      renderPlainLoop ctx fuel ⟨ci, co, td, arr, out⟩ = Except.ok st' ∧
      st'.arr = arr ++ B ∧
      B.length = fuel ∧
      st'.charIndex = ci + fuel ∧
      st'.out = out ++ oA ∧
      CRfreeS oA ∧
      List.Chain' (· ≤ ·) B ∧
      (B = [] ∨ B.head? = some co) ∧
      co ≤ st'.charOffsetInPart := by
  intro fuel
  induction fuel with
  | zero =>
    intro ci co td arr out _
    exact ⟨[], "", ⟨ci, co, td, arr, out⟩, rfl, by simp, rfl, by simp,
      (String.append_empty out).symm, CRfreeS_empty, List.chain'_nil,
      Or.inl rfl, le_refl _⟩
  | succ n ih =>
    intro ci co td arr out h
    have hlt : ci < bN := by omega
    rw [renderPlainLoop_step_cont ctx hb n ci co td arr out hlt]
    rcases ih (ci + 1)
        (co + (renderPlainChar ctx.lineText ctx.tabSize ctx.renderHardSpace
          ctx.renderControlCharacters ci td).2 + 1)
        (td + (renderPlainChar ctx.lineText ctx.tabSize ctx.renderHardSpace
          ctx.renderControlCharacters ci td).2)
        (arr ++ [co])
        (out ++ (renderPlainChar ctx.lineText ctx.tabSize ctx.renderHardSpace
          ctx.renderControlCharacters ci td).1)
        (by omega) with
      ⟨B', oA', st', heq, harr, hlen, hci, hout, hcr, hch, hhd, hco⟩
    refine ⟨co :: B',
      (renderPlainChar ctx.lineText ctx.tabSize ctx.renderHardSpace
        ctx.renderControlCharacters ci td).1 ++ oA',
      st', heq, ?_, by simp [hlen], by omega, ?_, ?_, ?_, ?_, ?_⟩
    · rw [harr]; simp
    · rw [hout]; simp [String.append_assoc]
    · exact CRfreeS_append (renderPlainChar_CRfree _ _ _ _ _ _) hcr
    · rw [List.chain'_cons']
      refine ⟨?_, hch⟩
      intro y hy
      rcases hhd with hB | hB
      · rw [hB] at hy; simp at hy
      · rw [hB] at hy
        simp only [Option.mem_def, Option.some.injEq] at hy
        subst hy
        omega
    · exact Or.inr rfl
    · omega

theorem renderPlainLoop_trunc (ctx : RCtx) {bN : Nat}
    (hb : ∀ k : Nat, ((k : Int) ≥ ctx.charBreakIndex ↔ bN ≤ k)) :
    ∀ (fuel ci co td : Nat) (arr : List Nat) (out : String),
      max ci bN < ci + fuel →
    ∃ (B : List Nat) (oA : String),
      renderPlainLoop ctx fuel ⟨ci, co, td, arr, out⟩ =
        Except.error (out ++ oA ++ "&hellip;</span></span>", arr ++ B) ∧
      CRfreeS oA ∧
      B.length = max ci bN - ci + 1 ∧
      List.Chain' (· ≤ ·) B ∧
      (ci < bN → B.head? = some co) ∧
      (bN ≤ ci → ∃ v, B = [v] ∧ co < v) := by
  intro fuel
  induction fuel with
  | zero =>
    intro ci co td arr out h
    exact absurd h (by omega)
  | succ n ih =>
    intro ci co td arr out h
    by_cases hge : bN ≤ ci
    · rw [renderPlainLoop_step_trunc ctx hb n ci co td arr out hge]
      refine ⟨[co + (renderPlainChar ctx.lineText ctx.tabSize
          ctx.renderHardSpace ctx.renderControlCharacters ci td).2 + 1],
        (renderPlainChar ctx.lineText ctx.tabSize ctx.renderHardSpace
          ctx.renderControlCharacters ci td).1,
        rfl, renderPlainChar_CRfree _ _ _ _ _ _, by simp; omega,
        List.chain'_singleton _, ?_, ?_⟩
      · intro h'; exact absurd h' (by omega)
      · intro _; exact ⟨_, rfl, by omega⟩
    · have hlt : ci < bN := by omega
      rw [renderPlainLoop_step_cont ctx hb n ci co td arr out hlt]
      rcases ih (ci + 1)
          (co + (renderPlainChar ctx.lineText ctx.tabSize ctx.renderHardSpace
            ctx.renderControlCharacters ci td).2 + 1)
          (td + (renderPlainChar ctx.lineText ctx.tabSize ctx.renderHardSpace
            ctx.renderControlCharacters ci td).2)
          (arr ++ [co])
          (out ++ (renderPlainChar ctx.lineText ctx.tabSize ctx.renderHardSpace
            ctx.renderControlCharacters ci td).1)
          (by omega) with
        ⟨B', oA', heq, hcr, hlen, hch, hhd1, hhd2⟩
      refine ⟨co :: B',
        (renderPlainChar ctx.lineText ctx.tabSize ctx.renderHardSpace
          ctx.renderControlCharacters ci td).1 ++ oA',
        ?_, CRfreeS_append (renderPlainChar_CRfree _ _ _ _ _ _) hcr, ?_, ?_, ?_, ?_⟩
      · rw [heq]
        simp only [List.append_assoc, List.singleton_append, String.append_assoc]
      · simp only [List.length_cons]
        rw [Nat.max_eq_right (by omega : ci + 1 ≤ bN)] at hlen
        rw [Nat.max_eq_right (by omega : ci ≤ bN)]
        clear heq hch hhd1 hhd2 hcr ih h
        omega
      · rw [List.chain'_cons']
        refine ⟨?_, hch⟩
        intro y hy
        by_cases hc2 : ci + 1 < bN
        · have := hhd1 hc2
          rw [this] at hy
          simp only [Option.mem_def, Option.some.injEq] at hy
          omega
        · rcases hhd2 (by omega) with ⟨v, hv, hvlt⟩
          rw [hv] at hy
          simp only [List.head?_cons, Option.mem_def, Option.some.injEq] at hy
          omega
      · intro _; rfl
      · intro habs; exact absurd habs (by omega)

theorem renderWsLoop_step_cont (ctx : RCtx) (t : String) {bN : Nat}
    (hb : ∀ k : Nat, ((k : Int) ≥ ctx.charBreakIndex ↔ bN ≤ k))
    (fuel ci co td : Nat) (arr : List Nat) (out : String)
    (pc : String) (cnt : Nat) (h : ci < bN) :
    renderWsLoop ctx t (fuel + 1) ⟨ci, co, td, arr, out⟩ pc cnt =
      renderWsLoop ctx t fuel
        ⟨ci + 1,
         co + (renderWsChar ctx.lineText ctx.tabSize ci td).2.2 + 1,
         td + (renderWsChar ctx.lineText ctx.tabSize ci td).2.2,
         arr ++ [co], out⟩
        (pc ++ (renderWsChar ctx.lineText ctx.tabSize ci td).1)
        (cnt + (renderWsChar ctx.lineText ctx.tabSize ci td).2.1) := by
  have hcond : ¬ (((ci : Int)) ≥ ctx.charBreakIndex) := by
    intro hge
    exact absurd ((hb ci).mp hge) (by omega)
  simp only [renderWsLoop]
  rw [if_neg hcond]

theorem renderWsLoop_step_trunc (ctx : RCtx) (t : String) {bN : Nat}
    (hb : ∀ k : Nat, ((k : Int) ≥ ctx.charBreakIndex ↔ bN ≤ k))
    (fuel ci co td : Nat) (arr : List Nat) (out : String)
    (pc : String) (cnt : Nat) (h : bN ≤ ci) :
    renderWsLoop ctx t (fuel + 1) ⟨ci, co, td, arr, out⟩ pc cnt =
      Except.error
        (out ++ wsSpanHeader t ctx.spaceWidth
            (cnt + (renderWsChar ctx.lineText ctx.tabSize ci td).2.1) ++
          (pc ++ (renderWsChar ctx.lineText ctx.tabSize ci td).1) ++
          "&hellip;</span></span>",
         arr ++ [co + (renderWsChar ctx.lineText ctx.tabSize ci td).2.2 + 1]) := by
  have hcond : (((ci : Int)) ≥ ctx.charBreakIndex) :=
    (hb ci).mpr h
  simp only [renderWsLoop]
  rw [if_pos hcond]

theorem renderWsLoop_ok (ctx : RCtx) (t : String) {bN : Nat}
    (hb : ∀ k : Nat, ((k : Int) ≥ ctx.charBreakIndex ↔ bN ≤ k)) :
    ∀ (fuel ci co td : Nat) (arr : List Nat) (out : String)
      (pc : String) (cnt : Nat),
      (ci + fuel ≤ bN ∨ fuel = 0) →
    ∃ (B : List Nat) (pcA : String) (cntA : Nat) (st' : RState),
      renderWsLoop ctx t fuel ⟨ci, co, td, arr, out⟩ pc cnt =
        Except.ok (st', pc ++ pcA, cnt + cntA) ∧
      st'.arr = arr ++ B ∧
      B.length = fuel ∧
      st'.charIndex = ci + fuel ∧
      st'.out = out ∧
      CRfreeS pcA ∧
      List.Chain' (· ≤ ·) B ∧
      (B = [] ∨ B.head? = some co) ∧
      co ≤ st'.charOffsetInPart := by
  intro fuel
  induction fuel with
  | zero =>
    intro ci co td arr out pc cnt _
    refine ⟨[], "", 0, ⟨ci, co, td, arr, out⟩, ?_, by simp, rfl, by simp, rfl,
      CRfreeS_empty, List.chain'_nil, Or.inl rfl, le_refl _⟩
    simp only [renderWsLoop, String.append_empty, Nat.add_zero]
  | succ n ih =>
    intro ci co td arr out pc cnt h
    have hlt : ci < bN := by omega
    rw [renderWsLoop_step_cont ctx t hb n ci co td arr out pc cnt hlt]
    rcases ih (ci + 1)
        (co + (renderWsChar ctx.lineText ctx.tabSize ci td).2.2 + 1)
        (td + (renderWsChar ctx.lineText ctx.tabSize ci td).2.2)
        (arr ++ [co]) out
        (pc ++ (renderWsChar ctx.lineText ctx.tabSize ci td).1)
        (cnt + (renderWsChar ctx.lineText ctx.tabSize ci td).2.1)
        (by omega) with
      ⟨B', pcA', cntA', st', heq, harr, hlen, hci, hout, hcr, hch, hhd, hco⟩
    refine ⟨co :: B',
      (renderWsChar ctx.lineText ctx.tabSize ci td).1 ++ pcA',
      (renderWsChar ctx.lineText ctx.tabSize ci td).2.1 + cntA',
      st', ?_, ?_, by simp [hlen], by omega, hout, ?_, ?_, ?_, ?_⟩
    · rw [heq]
      rw [← String.append_assoc]
      rw [← Nat.add_assoc]
    · rw [harr]; simp
    · exact CRfreeS_append (renderWsChar_CRfree _ _ _ _) hcr
    · rw [List.chain'_cons']
      refine ⟨?_, hch⟩
      intro y hy
      rcases hhd with hB | hB
      · rw [hB] at hy; simp at hy
      · rw [hB] at hy
        simp only [Option.mem_def, Option.some.injEq] at hy
        subst hy
        omega
    · exact Or.inr rfl
    · omega

theorem renderWsLoop_trunc (ctx : RCtx) (t : String) {bN : Nat}
    (hb : ∀ k : Nat, ((k : Int) ≥ ctx.charBreakIndex ↔ bN ≤ k)) :
    ∀ (fuel ci co td : Nat) (arr : List Nat) (out : String)
      (pc : String) (cnt : Nat),
      max ci bN < ci + fuel →
    ∃ (B : List Nat) (pcA : String) (cntF : Nat),
      renderWsLoop ctx t fuel ⟨ci, co, td, arr, out⟩ pc cnt =
        Except.error
          (out ++ wsSpanHeader t ctx.spaceWidth cntF ++ (pc ++ pcA) ++
            "&hellip;</span></span>", arr ++ B) ∧
      CRfreeS pcA ∧
      B.length = max ci bN - ci + 1 ∧
      List.Chain' (· ≤ ·) B ∧
      (ci < bN → B.head? = some co) ∧
      (bN ≤ ci → ∃ v, B = [v] ∧ co < v) := by
  intro fuel
  induction fuel with
  | zero =>
    intro ci co td arr out pc cnt h
    exact absurd h (by omega)
  | succ n ih =>
    intro ci co td arr out pc cnt h
    by_cases hge : bN ≤ ci
    · rw [renderWsLoop_step_trunc ctx t hb n ci co td arr out pc cnt hge]
      refine ⟨[co + (renderWsChar ctx.lineText ctx.tabSize ci td).2.2 + 1],
        (renderWsChar ctx.lineText ctx.tabSize ci td).1,
        cnt + (renderWsChar ctx.lineText ctx.tabSize ci td).2.1,
        rfl, renderWsChar_CRfree _ _ _ _, by simp; omega,
        List.chain'_singleton _, ?_, ?_⟩
      · intro h'; exact absurd h' (by omega)
      · intro _; exact ⟨_, rfl, by omega⟩
    · have hlt : ci < bN := by omega
      rw [renderWsLoop_step_cont ctx t hb n ci co td arr out pc cnt hlt]
      rcases ih (ci + 1)
          (co + (renderWsChar ctx.lineText ctx.tabSize ci td).2.2 + 1)
          (td + (renderWsChar ctx.lineText ctx.tabSize ci td).2.2)
          (arr ++ [co]) out
          (pc ++ (renderWsChar ctx.lineText ctx.tabSize ci td).1)
          (cnt + (renderWsChar ctx.lineText ctx.tabSize ci td).2.1)
          (by omega) with
        ⟨B', pcA', cntF', heq, hcr, hlen, hch, hhd1, hhd2⟩
      refine ⟨co :: B',
        (renderWsChar ctx.lineText ctx.tabSize ci td).1 ++ pcA',
        cntF', ?_, CRfreeS_append (renderWsChar_CRfree _ _ _ _) hcr, ?_, ?_, ?_, ?_⟩
      · rw [heq]
        rw [← String.append_assoc pc]
        simp only [List.append_assoc, List.singleton_append]
      · simp only [List.length_cons]
        rw [Nat.max_eq_right (by omega : ci + 1 ≤ bN)] at hlen
        rw [Nat.max_eq_right (by omega : ci ≤ bN)]
        clear heq hch hhd1 hhd2 hcr ih h
        omega
      · rw [List.chain'_cons']
        refine ⟨?_, hch⟩
        intro y hy
        by_cases hc2 : ci + 1 < bN
        · have := hhd1 hc2
          rw [this] at hy
          simp only [Option.mem_def, Option.some.injEq] at hy
          omega
        · rcases hhd2 (by omega) with ⟨v, hv, hvlt⟩
          rw [hv] at hy
          simp only [List.head?_cons, Option.mem_def, Option.some.injEq] at hy
          omega
      · intro _; rfl
      · intro habs; exact absurd habs (by omega)

theorem renderPartsLoop_spec (ctx : RCtx) {bN len : Nat}
    (hb : ∀ k : Nat, ((k : Int) ≥ ctx.charBreakIndex ↔ bN ≤ k)) (hlen : ctx.lineTextLength = len) :
    ∀ (ps : List ViewLineToken) (j0 : Nat) (ci co td : Nat) (arr : List Nat)
      (out : String),
      arr.length = ci → ci ≤ len → ci ≤ bN → ps ≠ [] →
      (bN < len →
        ∃ j o a, renderPartsLoop ctx ps j0 ⟨ci, co, td, arr, out⟩ =
            Except.error (j, o, a) ∧
          a.length = bN + 1 ∧
          (∃ o0, o = o0 ++ "&hellip;</span></span>") ∧
          ((CRfreeS out ∧ ∀ p ∈ ps, CRfreeS p.type) → CRfreeS o)) ∧
      (len ≤ bN →
        ∃ st', renderPartsLoop ctx ps j0 ⟨ci, co, td, arr, out⟩ =
            Except.ok st' ∧
          st'.charIndex = len ∧ st'.arr.length = len ∧
          ((CRfreeS out ∧ ∀ p ∈ ps, CRfreeS p.type) → CRfreeS st'.out)) := by
  intro ps
  induction ps with
  | nil => intro j0 ci co td arr out _ _ _ hne; exact absurd rfl hne
  | cons part rest ih =>
    intro j0 ci co td arr out harr hle hble _
    have hsuffix : CRfreeS "&hellip;</span></span>" := by unfold CRfreeS; decide
    have hclose : CRfreeS "</span>" := by unfold CRfreeS; decide
    have hopen : CRfreeS "<span class=\"token " := by unfold CRfreeS; decide
    have hopen2 : CRfreeS "\">" := by unfold CRfreeS; decide
    rcases rest with _ | ⟨next, rest'⟩
    · -- last part: toCharIndex = lineTextLength
      constructor
      · intro hbl
        by_cases hw : ((ctx.renderWhitespace != RenderWhitespace.none) &&
            isWhitespace part.type) = true
        · rcases renderWsLoop_trunc ctx part.type hb
              (ctx.lineTextLength - ci) ci 0 td arr out "" 0
              (by rw [hlen]; omega) with
            ⟨B, pcA, cntF, heq, hcr, hlenB, -, -, -⟩
          refine ⟨j0,
            out ++ wsSpanHeader part.type ctx.spaceWidth cntF ++ ("" ++ pcA) ++
              "&hellip;</span></span>", arr ++ B, ?_, ?_, ⟨_, rfl⟩, ?_⟩
          · simp only [renderPartsLoop]
            rw [if_pos hw]
            rw [heq]
          · rw [Nat.max_eq_right (by omega : ci ≤ bN)] at hlenB
            simp only [List.length_append, harr, hlenB]
            omega
          · intro ⟨ho, hp⟩
            exact CRfreeS_append
              (CRfreeS_append
                (CRfreeS_append ho
                  (wsSpanHeader_CRfree (hp part (by simp)) _ _))
                (CRfreeS_append CRfreeS_empty hcr))
              hsuffix
        · rcases renderPlainLoop_trunc ctx hb
              (ctx.lineTextLength - ci) ci 0 td arr
              (out ++ "<span class=\"token " ++ part.type ++ "\">")
              (by rw [hlen]; omega) with
            ⟨B, oA, heq, hcr, hlenB, -, -, -⟩
          refine ⟨j0,
            out ++ "<span class=\"token " ++ part.type ++ "\">" ++ oA ++
              "&hellip;</span></span>", arr ++ B, ?_, ?_, ⟨_, rfl⟩, ?_⟩
          · simp only [renderPartsLoop]
            rw [if_neg hw]
            rw [heq]
          · rw [Nat.max_eq_right (by omega : ci ≤ bN)] at hlenB
            simp only [List.length_append, harr, hlenB]
            omega
          · intro ⟨ho, hp⟩
            exact CRfreeS_append
              (CRfreeS_append
                (CRfreeS_append
                  (CRfreeS_append (CRfreeS_append ho hopen) (hp part (by simp)))
                  hopen2)
                hcr)
              hsuffix
      · intro hlb
        by_cases hw : ((ctx.renderWhitespace != RenderWhitespace.none) &&
            isWhitespace part.type) = true
        · rcases renderWsLoop_ok ctx part.type hb
              (ctx.lineTextLength - ci) ci 0 td arr out "" 0
              (by rw [hlen]; omega) with
            ⟨B, pcA, cntA, st2, heq, harr2, hlenB, hci2, hout2, hcr, -, -, -⟩
          refine ⟨⟨st2.charIndex, st2.charOffsetInPart, st2.tabsCharDelta, st2.arr,
              st2.out ++ wsSpanHeader part.type ctx.spaceWidth (0 + cntA) ++
                ("" ++ pcA) ++ "</span>"⟩, ?_, ?_, ?_, ?_⟩
          · simp only [renderPartsLoop]
            rw [if_pos hw]
            rw [heq]
          · simp only [hci2]
            rw [hlen]
            omega
          · simp only [harr2, List.length_append, harr, hlenB]
            rw [hlen]
            omega
          · intro ⟨ho, hp⟩
            rw [hout2]
            exact CRfreeS_append
              (CRfreeS_append
                (CRfreeS_append ho (wsSpanHeader_CRfree (hp part (by simp)) _ _))
                (CRfreeS_append CRfreeS_empty hcr))
              hclose
        · rcases renderPlainLoop_ok ctx hb
              (ctx.lineTextLength - ci) ci 0 td arr
              (out ++ "<span class=\"token " ++ part.type ++ "\">")
              (by rw [hlen]; omega) with
            ⟨B, oA, st2, heq, harr2, hlenB, hci2, hout2, hcr, -, -, -⟩
          refine ⟨⟨st2.charIndex, st2.charOffsetInPart, st2.tabsCharDelta, st2.arr,
              st2.out ++ "</span>"⟩, ?_, ?_, ?_, ?_⟩
          · simp only [renderPartsLoop]
            rw [if_neg hw]
            rw [heq]
          · simp only [hci2]
            rw [hlen]
            omega
          · simp only [harr2, List.length_append, harr, hlenB]
            rw [hlen]
            omega
          · intro ⟨ho, hp⟩
            rw [hout2]
            exact CRfreeS_append
              (CRfreeS_append
                (CRfreeS_append
                  (CRfreeS_append (CRfreeS_append ho hopen) (hp part (by simp)))
                  hopen2)
                hcr)
              hclose
    · -- middle part
      have htle : min ctx.lineTextLength next.startIndex ≤ len := by
        rw [hlen]; omega
      constructor
      · intro hbl
        by_cases hbt : bN < min ctx.lineTextLength next.startIndex
        · by_cases hw : ((ctx.renderWhitespace != RenderWhitespace.none) &&
              isWhitespace part.type) = true
          · rcases renderWsLoop_trunc ctx part.type hb
                (min ctx.lineTextLength next.startIndex - ci) ci 0 td arr out "" 0
                (by omega) with
              ⟨B, pcA, cntF, heq, hcr, hlenB, -, -, -⟩
            refine ⟨j0,
              out ++ wsSpanHeader part.type ctx.spaceWidth cntF ++ ("" ++ pcA) ++
                "&hellip;</span></span>", arr ++ B, ?_, ?_, ⟨_, rfl⟩, ?_⟩
            · simp only [renderPartsLoop]
              rw [if_pos hw]
              rw [heq]
            · rw [Nat.max_eq_right (by omega : ci ≤ bN)] at hlenB
              simp only [List.length_append, harr, hlenB]
              omega
            · intro ⟨ho, hp⟩
              exact CRfreeS_append
                (CRfreeS_append
                  (CRfreeS_append ho
                    (wsSpanHeader_CRfree (hp part (by simp)) _ _))
                  (CRfreeS_append CRfreeS_empty hcr))
                hsuffix
          · rcases renderPlainLoop_trunc ctx hb
                (min ctx.lineTextLength next.startIndex - ci) ci 0 td arr
                (out ++ "<span class=\"token " ++ part.type ++ "\">")
                (by omega) with
              ⟨B, oA, heq, hcr, hlenB, -, -, -⟩
            refine ⟨j0,
              out ++ "<span class=\"token " ++ part.type ++ "\">" ++ oA ++
                "&hellip;</span></span>", arr ++ B, ?_, ?_, ⟨_, rfl⟩, ?_⟩
            · simp only [renderPartsLoop]
              rw [if_neg hw]
              rw [heq]
            · rw [Nat.max_eq_right (by omega : ci ≤ bN)] at hlenB
              simp only [List.length_append, harr, hlenB]
              omega
            · intro ⟨ho, hp⟩
              exact CRfreeS_append
                (CRfreeS_append
                  (CRfreeS_append
                    (CRfreeS_append (CRfreeS_append ho hopen) (hp part (by simp)))
                    hopen2)
                  hcr)
                hsuffix
        · by_cases hw : ((ctx.renderWhitespace != RenderWhitespace.none) &&
              isWhitespace part.type) = true
          · rcases renderWsLoop_ok ctx part.type hb
                (min ctx.lineTextLength next.startIndex - ci) ci 0 td arr out "" 0
                (by omega) with
              ⟨B, pcA, cntA, st2, heq, harr2, hlenB, hci2, hout2, hcr, -, -, -⟩
            have hrec := (ih (j0 + 1) st2.charIndex st2.charOffsetInPart
              st2.tabsCharDelta st2.arr
              (st2.out ++ wsSpanHeader part.type ctx.spaceWidth (0 + cntA) ++
                ("" ++ pcA) ++ "</span>")
              (by rw [harr2, List.length_append, harr, hlenB, hci2])
              (by rw [hci2]; omega)
              (by rw [hci2]; omega)
              (by simp)).1 hbl
            rcases hrec with ⟨j, o, a, heqr, halen, hsfx, hcro⟩
            refine ⟨j, o, a, ?_, halen, hsfx, ?_⟩
            · simp only [renderPartsLoop]
              rw [if_pos hw]
              rw [heq]
              exact heqr
            · intro ⟨ho, hp⟩
              apply hcro
              refine ⟨?_, fun p hpmem => hp p (by simp [hpmem])⟩
              rw [hout2]
              exact CRfreeS_append
                (CRfreeS_append
                  (CRfreeS_append ho
                    (wsSpanHeader_CRfree (hp part (by simp)) _ _))
                  (CRfreeS_append CRfreeS_empty hcr))
                hclose
          · rcases renderPlainLoop_ok ctx hb
                (min ctx.lineTextLength next.startIndex - ci) ci 0 td arr
                (out ++ "<span class=\"token " ++ part.type ++ "\">")
                (by omega) with
              ⟨B, oA, st2, heq, harr2, hlenB, hci2, hout2, hcr, -, -, -⟩
            have hrec := (ih (j0 + 1) st2.charIndex st2.charOffsetInPart
              st2.tabsCharDelta st2.arr (st2.out ++ "</span>")
              (by rw [harr2, List.length_append, harr, hlenB, hci2])
              (by rw [hci2]; omega)
              (by rw [hci2]; omega)
              (by simp)).1 hbl
            rcases hrec with ⟨j, o, a, heqr, halen, hsfx, hcro⟩
            refine ⟨j, o, a, ?_, halen, hsfx, ?_⟩
            · simp only [renderPartsLoop]
              rw [if_neg hw]
              rw [heq]
              exact heqr
            · intro ⟨ho, hp⟩
              apply hcro
              refine ⟨?_, fun p hpmem => hp p (by simp [hpmem])⟩
              rw [hout2]
              exact CRfreeS_append
                (CRfreeS_append
                  (CRfreeS_append
                    (CRfreeS_append (CRfreeS_append ho hopen) (hp part (by simp)))
                    hopen2)
                  hcr)
                hclose
      · intro hlb
        by_cases hw : ((ctx.renderWhitespace != RenderWhitespace.none) &&
            isWhitespace part.type) = true
        · rcases renderWsLoop_ok ctx part.type hb
              (min ctx.lineTextLength next.startIndex - ci) ci 0 td arr out "" 0
              (by omega) with
            ⟨B, pcA, cntA, st2, heq, harr2, hlenB, hci2, hout2, hcr, -, -, -⟩
          have hrec := (ih (j0 + 1) st2.charIndex st2.charOffsetInPart
            st2.tabsCharDelta st2.arr
            (st2.out ++ wsSpanHeader part.type ctx.spaceWidth (0 + cntA) ++
              ("" ++ pcA) ++ "</span>")
            (by rw [harr2, List.length_append, harr, hlenB, hci2])
            (by rw [hci2]; omega)
            (by rw [hci2]; omega)
            (by simp)).2 hlb
          rcases hrec with ⟨st', heqr, hci', halen', hcro⟩
          refine ⟨st', ?_, hci', halen', ?_⟩
          · simp only [renderPartsLoop]
            rw [if_pos hw]
            rw [heq]
            exact heqr
          · intro ⟨ho, hp⟩
            apply hcro
            refine ⟨?_, fun p hpmem => hp p (by simp [hpmem])⟩
            rw [hout2]
            exact CRfreeS_append
              (CRfreeS_append
                (CRfreeS_append ho (wsSpanHeader_CRfree (hp part (by simp)) _ _))
                (CRfreeS_append CRfreeS_empty hcr))
              hclose
        · rcases renderPlainLoop_ok ctx hb
              (min ctx.lineTextLength next.startIndex - ci) ci 0 td arr
              (out ++ "<span class=\"token " ++ part.type ++ "\">")
              (by omega) with
            ⟨B, oA, st2, heq, harr2, hlenB, hci2, hout2, hcr, -, -, -⟩
          have hrec := (ih (j0 + 1) st2.charIndex st2.charOffsetInPart
            st2.tabsCharDelta st2.arr (st2.out ++ "</span>")
            (by rw [harr2, List.length_append, harr, hlenB, hci2])
            (by rw [hci2]; omega)
            (by rw [hci2]; omega)
            (by simp)).2 hlb
          rcases hrec with ⟨st', heqr, hci', halen', hcro⟩
          refine ⟨st', ?_, hci', halen', ?_⟩
          · simp only [renderPartsLoop]
            rw [if_neg hw]
            rw [heq]
            exact heqr
          · intro ⟨ho, hp⟩
            apply hcro
            refine ⟨?_, fun p hpmem => hp p (by simp [hpmem])⟩
            rw [hout2]
            exact CRfreeS_append
              (CRfreeS_append
                (CRfreeS_append
                  (CRfreeS_append (CRfreeS_append ho hopen) (hp part (by simp)))
                  hopen2)
                hcr)
              hclose

/-- Claim C10: for every non-empty line with `stopRenderingLineAfter` equal to
`text.length` (break index `text.length - 1`), `renderLine` processes every
character yet still returns through the truncation path: the markup ends in
the ellipsis marker and the offset table has exactly `text.length` entries,
with no trailing past-the-end entry. -/
theorem claim_C10 (input : RenderLineInput)
    (hne : input.lineContent ≠ [])
    (hp : input.parts ≠ [])
    (hstop : input.stopRenderingLineAfter = (input.lineContent.length : Int)) :
    ∃ r, renderLine input = Except.ok r ∧
      r.charOffsetInPart.length = input.lineContent.length ∧
      (∃ o0, r.output = o0 ++ "&hellip;</span></span>") := by
  have hlen0 : input.lineContent.length ≠ 0 := by
    intro h0; exact hne (List.length_eq_zero.mp h0)
  have hp0 : input.parts.length ≠ 0 := by
    intro h0; exact hp (List.length_eq_zero.mp h0)
  have hb : ∀ k : Nat, ((k : Int) ≥
      charBreakIndex input.stopRenderingLineAfter input.lineContent.length ↔
      input.lineContent.length - 1 ≤ k) := by
    intro k
    unfold charBreakIndex
    rw [if_neg (by rw [hstop]; omega)]
    rw [hstop]
    omega
  rcases (@renderPartsLoop_spec ⟨input.lineContent, input.lineContent.length,
      input.tabSize, input.spaceWidth, input.renderWhitespace,
      input.renderHardSpace, input.renderControlCharacters,
      charBreakIndex input.stopRenderingLineAfter input.lineContent.length⟩
      (input.lineContent.length - 1) input.lineContent.length
      hb rfl input.parts 0 0 0 0 [] "<span>" rfl (by omega) (by omega) hp).1
      (by omega) with ⟨j, o, a, heq, halen, hsfx, -⟩
  refine ⟨⟨a, j, o⟩, ?_, ?_, hsfx⟩
  · simp only [renderLine]
    rw [if_neg hlen0, if_neg hp0]
    simp only [renderLineActual]
    rw [heq]
  · simp only []
    omega

/-- Claim C9 (amended): every carriage return rendered in a plain segment
emits the zero-width-space marker `&#8203` in its place, and — provided no
part category label itself contains a carriage return — the returned markup
never contains a literal carriage-return character. -/
theorem claim_C9 (input : RenderLineInput)
    (hparts : ∀ p ∈ input.parts, CRfreeS p.type) :
    (∀ (lineText : List Char) (tabSize : Nat) (rhs rcc : Bool)
        (charIndex tabsCharDelta : Nat),
      charCodeAt lineText charIndex = 13 →
      renderPlainChar lineText tabSize rhs rcc charIndex tabsCharDelta =
        ("&#8203", 0)) ∧
    (∀ r, renderLine input = Except.ok r → CRfreeS r.output) := by
  have hspan : CRfreeS "<span>" := by unfold CRfreeS; decide
  have hclose : CRfreeS "</span>" := by unfold CRfreeS; decide
  constructor
  · intro lineText tabSize rhs rcc charIndex tabsCharDelta hc
    simp [renderPlainChar, hc]
  · intro r hr
    by_cases h0 : input.lineContent.length = 0
    · simp only [renderLine] at hr
      rw [if_pos h0] at hr
      have hXr : r = (⟨[], 0, "<span><span>&nbsp;</span></span>"⟩ :
          RenderLineOutput) := (Except.ok.inj hr).symm
      rw [hXr]
      unfold CRfreeS
      decide
    · by_cases hpnil : input.parts = []
      · exfalso
        simp only [renderLine] at hr
        rw [if_neg h0, if_pos (by rw [hpnil]; rfl)] at hr
        cases hr
      · have hp0 : input.parts.length ≠ 0 := by
          intro hx; exact hpnil (List.length_eq_zero.mp hx)
        have hb : ∀ k : Nat, ((k : Int) ≥
            charBreakIndex input.stopRenderingLineAfter input.lineContent.length ↔
            (charBreakIndex input.stopRenderingLineAfter
              input.lineContent.length).toNat ≤ k) := by
          intro k
          omega
        simp only [renderLine] at hr
        rw [if_neg h0, if_neg hp0] at hr
        simp only [renderLineActual] at hr
        rcases Nat.lt_or_ge
            (charBreakIndex input.stopRenderingLineAfter
              input.lineContent.length).toNat
            input.lineContent.length with hfire | hnofire
        · rcases (@renderPartsLoop_spec ⟨input.lineContent,
              input.lineContent.length, input.tabSize, input.spaceWidth,
              input.renderWhitespace, input.renderHardSpace,
              input.renderControlCharacters,
              charBreakIndex input.stopRenderingLineAfter
                input.lineContent.length⟩
              (charBreakIndex input.stopRenderingLineAfter
                input.lineContent.length).toNat input.lineContent.length
              hb rfl input.parts 0 0 0 0 [] "<span>" rfl (by omega) (by omega)
              hpnil).1 hfire with ⟨j, o, a, heq, -, -, hcro⟩
          rw [heq] at hr
          have hXr : r = (⟨a, j, o⟩ : RenderLineOutput) :=
            (Except.ok.inj hr).symm
          rw [hXr]
          exact hcro ⟨hspan, hparts⟩
        · rcases (@renderPartsLoop_spec ⟨input.lineContent,
              input.lineContent.length, input.tabSize, input.spaceWidth,
              input.renderWhitespace, input.renderHardSpace,
              input.renderControlCharacters,
              charBreakIndex input.stopRenderingLineAfter
                input.lineContent.length⟩
              (charBreakIndex input.stopRenderingLineAfter
                input.lineContent.length).toNat input.lineContent.length
              hb rfl input.parts 0 0 0 0 [] "<span>" rfl (by omega) (by omega)
              hpnil).2 hnofire with ⟨st', heq, -, -, hcro⟩
          rw [heq] at hr
          have hXr : r = (⟨st'.arr ++ [st'.charOffsetInPart],
              input.parts.length - 1, st'.out ++ "</span>"⟩ :
              RenderLineOutput) := (Except.ok.inj hr).symm
          rw [hXr]
          exact CRfreeS_append (hcro ⟨hspan, hparts⟩) hclose

/-- Witness for C10 on a 3-character line with `stopRenderingLineAfter = 3`. -/
theorem claim_C10_witness :
    ∃ r, renderLine ⟨['a', 'b', 'c'], 4, 1, 3, RenderWhitespace.none, false,
        false, [⟨0, "plain"⟩]⟩ = Except.ok r ∧
      r.charOffsetInPart.length = 3 ∧
      (∃ o0, r.output = o0 ++ "&hellip;</span></span>") :=
  claim_C10 ⟨['a', 'b', 'c'], 4, 1, 3, RenderWhitespace.none, false, false,
    [⟨0, "plain"⟩]⟩ (by decide) (by decide) (by decide)

/-- Witness for C9 on the line `"a\rb"` with a CR-free part label. -/
theorem claim_C9_witness :
    CRfreeS "<span><span class=\"token plain\">a&#8203b</span></span>" :=
  (claim_C9 ⟨['a', '\r', 'b'], 4, 1, -1, RenderWhitespace.none, false, false,
      [⟨0, "plain"⟩]⟩
    (by intro p hp
        simp at hp
        subst hp
        unfold CRfreeS
        decide)).2
    ⟨[0, 1, 2, 3], 0, "<span><span class=\"token plain\">a&#8203b</span></span>"⟩
    (by decide)

theorem segStart_cons (len : Nat) (part next : ViewLineToken)
    (rest' : List ViewLineToken) (c0 i : Nat) :
    segStart len (part :: next :: rest') c0 (i + 1) =
      segStart len (next :: rest') (min len next.startIndex) i := by
  rcases i with _ | i <;> simp [segStart]

theorem segEnd_cons (len : Nat) (part next : ViewLineToken)
    (rest' : List ViewLineToken) (i : Nat) :
    segEnd len (part :: next :: rest') (i + 1) = segEnd len (next :: rest') i := by
  unfold segEnd
  by_cases h : i + 1 < (next :: rest').length
  · rw [if_pos (by simp at h ⊢; omega), if_pos h]
    simp
  · rw [if_neg (by simp at h ⊢; omega), if_neg h]

theorem segBlock_cons (len : Nat) (part next : ViewLineToken)
    (rest' : List ViewLineToken) (c0 i : Nat) (table : List Nat) :
    segBlock len (part :: next :: rest') c0 (i + 1) table =
      segBlock len (next :: rest') (min len next.startIndex) i table := by
  unfold segBlock
  rw [segStart_cons, segEnd_cons]

theorem pairwise_cons_getD {x : ViewLineToken} {l : List ViewLineToken}
    (h : List.Pairwise (fun a b => a.startIndex ≤ b.startIndex) (x :: l))
    (i : Nat) (hi : i < (x :: l).length) :
    x.startIndex ≤ ((x :: l).getD i ⟨0, ""⟩).startIndex := by
  rcases i with _ | i'
  · simp
  · have hi' : i' < l.length := by simpa using hi
    have hm : l.getD i' ⟨0, ""⟩ ∈ l := by
      rw [List.getD_eq_getElem l _ hi']
      exact List.getElem_mem hi'
    simpa using (List.pairwise_cons.mp h).1 _ hm

theorem renderPartCont (ctx : RCtx) {bN : Nat}
    (hb : ∀ k : Nat, ((k : Int) ≥ ctx.charBreakIndex ↔ bN ≤ k))
    (part : ViewLineToken) (rest : List ViewLineToken) (j0 ci co td : Nat)
    (arr : List Nat) (out : String) (t : Nat)
    (ht : (match rest with
      | [] => ctx.lineTextLength
      | next :: _ => min ctx.lineTextLength next.startIndex) = t)
    (hok : ci + (t - ci) ≤ bN ∨ t - ci = 0) :
    ∃ (B : List Nat) (co2 td2 : Nat) (out2 : String),
      renderPartsLoop ctx (part :: rest) j0 ⟨ci, co, td, arr, out⟩ =
        renderPartsLoop ctx rest (j0 + 1) ⟨ci + (t - ci), co2, td2, arr ++ B, out2⟩ ∧
      B.length = t - ci ∧
      List.Chain' (· ≤ ·) B ∧
      (B = [] ∨ B.head? = some 0) := by
  by_cases hw : ((ctx.renderWhitespace != RenderWhitespace.none) &&
      isWhitespace part.type) = true
  · rcases renderWsLoop_ok ctx part.type hb (t - ci) ci 0 td arr out "" 0 hok with
      ⟨B, pcA, cntA, st2, heq, harr2, hlenB, hci2, hout2, -, hch, hhd, -⟩
    refine ⟨B, st2.charOffsetInPart, st2.tabsCharDelta,
      st2.out ++ wsSpanHeader part.type ctx.spaceWidth (0 + cntA) ++
        ("" ++ pcA) ++ "</span>", ?_, hlenB, hch, hhd⟩
    simp only [renderPartsLoop]
    rw [if_pos hw]
    rw [ht]
    rw [heq]
    rw [← harr2, ← hci2]
  · rcases renderPlainLoop_ok ctx hb (t - ci) ci 0 td arr
        (out ++ "<span class=\"token " ++ part.type ++ "\">") hok with
      ⟨B, oA, st2, heq, harr2, hlenB, hci2, hout2, -, hch, hhd, -⟩
    refine ⟨B, st2.charOffsetInPart, st2.tabsCharDelta,
      st2.out ++ "</span>", ?_, hlenB, hch, hhd⟩
    simp only [renderPartsLoop]
    rw [if_neg hw]
    rw [ht]
    rw [heq]
    rw [← harr2, ← hci2]

theorem renderPartTrunc (ctx : RCtx) {bN : Nat}
    (hb : ∀ k : Nat, ((k : Int) ≥ ctx.charBreakIndex ↔ bN ≤ k))
    (part : ViewLineToken) (rest : List ViewLineToken) (j0 ci co td : Nat)
    (arr : List Nat) (out : String) (t : Nat)
    (ht : (match rest with
      | [] => ctx.lineTextLength
      | next :: _ => min ctx.lineTextLength next.startIndex) = t)
    (hci : ci ≤ bN) (htr : bN < t) :
    ∃ (B : List Nat) (j : Nat) (o : String),
      renderPartsLoop ctx (part :: rest) j0 ⟨ci, co, td, arr, out⟩ =
        Except.error (j, o, arr ++ B) ∧
      B.length = bN - ci + 1 ∧
      List.Chain' (· ≤ ·) B ∧
      (ci < bN → B.head? = some 0) := by
  by_cases hw : ((ctx.renderWhitespace != RenderWhitespace.none) &&
      isWhitespace part.type) = true
  · rcases renderWsLoop_trunc ctx part.type hb (t - ci) ci 0 td arr out "" 0
        (by omega) with
      ⟨B, pcA, cntF, heq, -, hlenB, hch, hhd1, -⟩
    refine ⟨B, j0,
      out ++ wsSpanHeader part.type ctx.spaceWidth cntF ++ ("" ++ pcA) ++
        "&hellip;</span></span>", ?_, ?_, hch, hhd1⟩
    · simp only [renderPartsLoop]
      rw [if_pos hw]
      rw [ht]
      rw [heq]
    · rw [Nat.max_eq_right hci] at hlenB
      exact hlenB
  · rcases renderPlainLoop_trunc ctx hb (t - ci) ci 0 td arr
        (out ++ "<span class=\"token " ++ part.type ++ "\">") (by omega) with
      ⟨B, oA, heq, -, hlenB, hch, hhd1, -⟩
    refine ⟨B, j0,
      out ++ "<span class=\"token " ++ part.type ++ "\">" ++ oA ++
        "&hellip;</span></span>", ?_, ?_, hch, hhd1⟩
    · simp only [renderPartsLoop]
      rw [if_neg hw]
      rw [ht]
      rw [heq]
    · rw [Nat.max_eq_right hci] at hlenB
      exact hlenB

theorem renderPartsLoop_blocks (ctx : RCtx) {bN len : Nat}
    (hb : ∀ k : Nat, ((k : Int) ≥ ctx.charBreakIndex ↔ bN ≤ k))
    (hlen : ctx.lineTextLength = len) :
    ∀ (ps : List ViewLineToken) (j0 : Nat) (ci co td : Nat) (arr : List Nat)
      (out : String),
      arr.length = ci → ci ≤ len → ci ≤ bN →
      List.Pairwise (fun a b => a.startIndex ≤ b.startIndex) ps →
      (∀ q ∈ ps, ci ≤ min len q.startIndex) →
      ∃ (arrF sfx : List Nat),
        arrF = arr ++ sfx ∧
        ((∃ j o, renderPartsLoop ctx ps j0 ⟨ci, co, td, arr, out⟩ =
            Except.error (j, o, arrF)) ∨
         (∃ st', renderPartsLoop ctx ps j0 ⟨ci, co, td, arr, out⟩ =
            Except.ok st' ∧ st'.arr = arrF)) ∧
        (∀ i, i < ps.length →
          List.Chain' (· ≤ ·) (segBlock len ps ci i arrF) ∧
          (segBlock len ps ci i arrF ≠ [] →
            (segBlock len ps ci i arrF).head? = some 0 ∨
              (bN < len ∧ segStart len ps ci i = bN))) := by
  intro ps
  induction ps with
  | nil =>
    intro j0 ci co td arr out harr hle hble hsort hal
    refine ⟨arr, [], by simp, Or.inr ⟨⟨ci, co, td, arr, out⟩, rfl, rfl⟩, ?_⟩
    intro i hi
    simp at hi
  | cons part rest ih =>
    intro j0 ci co td arr out harr hle hble hsort hal
    rcases rest with _ | ⟨next, rest'⟩
    · -- single part, runs to the end of the line
      by_cases hbt : bN < len
      · rcases renderPartTrunc ctx hb part [] j0 ci co td arr out len hlen
            hble (by omega) with ⟨B, j, o, heq, hlenB, hch, hhd1⟩
        refine ⟨arr ++ B, B, rfl, Or.inl ⟨j, o, heq⟩, ?_⟩
        intro i hi
        have hi0 : i = 0 := by simpa using hi
        subst hi0
        have hblk : segBlock len [part] ci 0 (arr ++ B) = B := by
          unfold segBlock segStart segEnd
          rw [if_pos rfl, if_neg (by simp)]
          rw [← harr, List.drop_left]
          exact List.take_of_length_le (by omega)
        rw [hblk]
        refine ⟨hch, fun hBne => ?_⟩
        by_cases hcb : ci < bN
        · exact Or.inl (hhd1 hcb)
        · right
          refine ⟨hbt, ?_⟩
          unfold segStart
          rw [if_pos rfl]
          omega
      · rcases renderPartCont ctx hb part [] j0 ci co td arr out len hlen
            (by omega) with ⟨B, co2, td2, out2, heq, hlenB, hch, hhd⟩
        refine ⟨arr ++ B, B, rfl,
          Or.inr ⟨⟨ci + (len - ci), co2, td2, arr ++ B, out2⟩,
            by rw [heq]; simp only [renderPartsLoop], rfl⟩,
          ?_⟩
        intro i hi
        have hi0 : i = 0 := by simpa using hi
        subst hi0
        have hdl : (arr ++ B).drop ci = B := by
          rw [← harr]; exact List.drop_left arr B
        have hblk : segBlock len [part] ci 0 (arr ++ B) = B := by
          unfold segBlock segStart segEnd
          rw [if_pos rfl, if_neg (by simp)]
          rw [hdl, ← hlenB]
          exact List.take_length B
        rw [hblk]
        refine ⟨hch, fun hBne => ?_⟩
        rcases hhd with hB0 | hBh
        · exact absurd hB0 hBne
        · exact Or.inl hBh
    · -- at least two parts
      have hci_t : ci ≤ min len next.startIndex := hal next (by simp)
      by_cases hbt : bN < min len next.startIndex
      · rcases renderPartTrunc ctx hb part (next :: rest') j0 ci co td arr out
            (min len next.startIndex) (by rw [hlen]) hble hbt with
          ⟨B, j, o, heq, hlenB, hch, hhd1⟩
        refine ⟨arr ++ B, B, rfl, Or.inl ⟨j, o, heq⟩, ?_⟩
        intro i hi
        rcases i with _ | i'
        · have hblk : segBlock len (part :: next :: rest') ci 0 (arr ++ B) = B := by
            unfold segBlock segStart segEnd
            rw [if_pos rfl, if_pos (by simp)]
            simp only [List.getD_cons_succ, List.getD_cons_zero]
            rw [← harr, List.drop_left]
            exact List.take_of_length_le (by omega)
          rw [hblk]
          refine ⟨hch, fun hBne => ?_⟩
          by_cases hcb : ci < bN
          · exact Or.inl (hhd1 hcb)
          · right
            refine ⟨by omega, ?_⟩
            unfold segStart
            rw [if_pos rfl]
            omega
        · have hmem := pairwise_cons_getD (List.pairwise_cons.mp hsort).2 i'
            (by simpa using hi)
          have hblk : segBlock len (part :: next :: rest') ci (i' + 1)
              (arr ++ B) = [] := by
            unfold segBlock segStart segEnd
            rw [if_neg (Nat.succ_ne_zero i')]
            rw [List.drop_eq_nil_of_le]
            · exact List.take_nil
            · simp only [List.getD_cons_succ]
              simp only [List.length_append, harr, hlenB]
              omega
          rw [hblk]
          exact ⟨List.chain'_nil, fun habs => absurd rfl habs⟩
      · rcases renderPartCont ctx hb part (next :: rest') j0 ci co td arr out
            (min len next.startIndex) (by rw [hlen]) (by omega) with
          ⟨B, co2, td2, out2, heq, hlenB, hch, hhd⟩
        have hciB : ci + (min len next.startIndex - ci) =
            min len next.startIndex := by omega
        rw [hciB] at heq
        rcases ih (j0 + 1) (min len next.startIndex) co2 td2 (arr ++ B) out2
            (by simp only [List.length_append, harr, hlenB]; omega)
            (by omega) (by omega)
            (List.pairwise_cons.mp hsort).2
            (by
              intro q hq
              rcases List.mem_cons.mp hq with rfl | hq'
              · exact le_refl _
              · have := (List.pairwise_cons.mp
                  (List.pairwise_cons.mp hsort).2).1 q hq'
                omega) with
          ⟨arrF, sfx', harrF, hres, hfacts⟩
        refine ⟨arrF, B ++ sfx', by rw [harrF, List.append_assoc], ?_, ?_⟩
        · rcases hres with ⟨j, o, heqr⟩ | ⟨st', heqr, harrS⟩
          · exact Or.inl ⟨j, o, by rw [heq]; exact heqr⟩
          · exact Or.inr ⟨st', by rw [heq]; exact heqr, harrS⟩
        · intro i hi
          rcases i with _ | i'
          · have hdl : (arr ++ (B ++ sfx')).drop ci = B ++ sfx' := by
              rw [← harr]; exact List.drop_left arr (B ++ sfx')
            have hblk : segBlock len (part :: next :: rest') ci 0 arrF = B := by
              unfold segBlock segStart segEnd
              rw [if_pos rfl, if_pos (by simp)]
              simp only [List.getD_cons_succ, List.getD_cons_zero]
              rw [harrF, List.append_assoc, hdl, ← hlenB]
              exact List.take_left _ _
            rw [hblk]
            refine ⟨hch, fun hBne => ?_⟩
            rcases hhd with hB0 | hBh
            · exact absurd hB0 hBne
            · exact Or.inl hBh
          · have hfi := hfacts i' (by simpa using hi)
            rw [segBlock_cons, segStart_cons]
            exact hfi

theorem segStart_le_len (len : Nat) (ps : List ViewLineToken) (j : Nat) :
    segStart len ps 0 j ≤ len := by
  unfold segStart
  split <;> omega

theorem segEnd_le_len (len : Nat) (ps : List ViewLineToken) (j : Nat) :
    segEnd len ps j ≤ len := by
  unfold segEnd
  split <;> omega

theorem segBlock_snoc (len : Nat) (ps : List ViewLineToken) (j : Nat)
    (A : List Nat) (x : Nat) (hs : segStart len ps 0 j ≤ A.length)
    (he : segEnd len ps j ≤ A.length) :
    segBlock len ps 0 j (A ++ [x]) = segBlock len ps 0 j A := by
  unfold segBlock
  rw [List.drop_append_of_le_length hs]
  rw [List.take_append_of_le_length (by simp only [List.length_drop]; omega)]

/-- Claim C4 (amended): for every valid input the offset table has exactly
`min(text.length, breakIndex) + 1` entries when truncation fired and
`text.length + 1` entries otherwise, and within each segment the recorded
offsets are monotonically non-decreasing and reset to 0 at the segment start,
except that when truncation fires exactly at a segment's first character the
single entry recorded for that segment is the (positive) post-character
offset. -/
theorem claim_C4 (input : RenderLineInput)
    (hne : input.lineContent ≠ [])
    (hp : input.parts ≠ [])
    (hsort : List.Pairwise (fun a b => a.startIndex ≤ b.startIndex) input.parts)
    (hfirst : (input.parts.getD 0 ⟨0, ""⟩).startIndex = 0)
    (hstop : input.stopRenderingLineAfter = -1 ∨
      1 ≤ input.stopRenderingLineAfter) :
    ∃ r, renderLine input = Except.ok r ∧
      (r.charOffsetInPart.length =
        if (charBreakIndex input.stopRenderingLineAfter
              input.lineContent.length).toNat < input.lineContent.length then
          min input.lineContent.length
            (charBreakIndex input.stopRenderingLineAfter
              input.lineContent.length).toNat + 1
        else input.lineContent.length + 1) ∧
      (∀ j, j < input.parts.length →
        List.Chain' (· ≤ ·)
          (segBlock input.lineContent.length input.parts 0 j
            r.charOffsetInPart) ∧
        (segBlock input.lineContent.length input.parts 0 j
            r.charOffsetInPart ≠ [] →
          (segBlock input.lineContent.length input.parts 0 j
              r.charOffsetInPart).head? = some 0 ∨
            ((charBreakIndex input.stopRenderingLineAfter
                input.lineContent.length).toNat < input.lineContent.length ∧
              segStart input.lineContent.length input.parts 0 j =
                (charBreakIndex input.stopRenderingLineAfter
                  input.lineContent.length).toNat))) := by
  have hlen0 : input.lineContent.length ≠ 0 := by
    intro h0; exact hne (List.length_eq_zero.mp h0)
  have hp0 : input.parts.length ≠ 0 := by
    intro h0; exact hp (List.length_eq_zero.mp h0)
  have hb : ∀ k : Nat, ((k : Int) ≥
      charBreakIndex input.stopRenderingLineAfter input.lineContent.length ↔
      (charBreakIndex input.stopRenderingLineAfter
        input.lineContent.length).toNat ≤ k) := by
    intro k
    omega
  rcases @renderPartsLoop_blocks ⟨input.lineContent, input.lineContent.length,
      input.tabSize, input.spaceWidth, input.renderWhitespace,
      input.renderHardSpace, input.renderControlCharacters,
      charBreakIndex input.stopRenderingLineAfter input.lineContent.length⟩
      (charBreakIndex input.stopRenderingLineAfter
        input.lineContent.length).toNat input.lineContent.length
      hb rfl input.parts 0 0 0 0 [] "<span>" rfl (by omega) (by omega) hsort
      (fun q _ => Nat.zero_le _) with ⟨arrF, sfx, harrF, hres, hfacts⟩
  rcases Nat.lt_or_ge
      (charBreakIndex input.stopRenderingLineAfter
        input.lineContent.length).toNat input.lineContent.length with
    hfire | hnofire
  · rcases (@renderPartsLoop_spec ⟨input.lineContent, input.lineContent.length,
        input.tabSize, input.spaceWidth, input.renderWhitespace,
        input.renderHardSpace, input.renderControlCharacters,
        charBreakIndex input.stopRenderingLineAfter input.lineContent.length⟩
        (charBreakIndex input.stopRenderingLineAfter
          input.lineContent.length).toNat input.lineContent.length
        hb rfl input.parts 0 0 0 0 [] "<span>" rfl (by omega) (by omega) hp).1
        hfire with ⟨j, o, a, heqA, halenA, -, -⟩
    rcases hres with ⟨j', o', heqB⟩ | ⟨st', heqB, -⟩
    · have h3 := Except.error.inj (heqA.symm.trans heqB)
      have haF : a = arrF := congrArg (fun x => x.2.2) h3
      refine ⟨⟨a, j, o⟩, ?_, ?_, ?_⟩
      · simp only [renderLine]
        rw [if_neg hlen0, if_neg hp0]
        simp only [renderLineActual]
        rw [heqA]
      · simp only []
        rw [if_pos hfire]
        omega
      · intro jj hjj
        simp only []
        rw [haF]
        exact hfacts jj hjj
    · rw [heqA] at heqB
      cases heqB
  · rcases (@renderPartsLoop_spec ⟨input.lineContent, input.lineContent.length,
        input.tabSize, input.spaceWidth, input.renderWhitespace,
        input.renderHardSpace, input.renderControlCharacters,
        charBreakIndex input.stopRenderingLineAfter input.lineContent.length⟩
        (charBreakIndex input.stopRenderingLineAfter
          input.lineContent.length).toNat input.lineContent.length
        hb rfl input.parts 0 0 0 0 [] "<span>" rfl (by omega) (by omega) hp).2
        hnofire with ⟨st'', heqA, hciA, halenA, -⟩
    rcases hres with ⟨j', o', heqB⟩ | ⟨st', heqB, harrS⟩
    · rw [heqA] at heqB
      cases heqB
    · have hstEq : st'' = st' := Except.ok.inj (heqA.symm.trans heqB)
      have haF : st''.arr = arrF := by rw [hstEq, harrS]
      refine ⟨⟨st''.arr ++ [st''.charOffsetInPart], input.parts.length - 1,
        st''.out ++ "</span>"⟩, ?_, ?_, ?_⟩
      · simp only [renderLine]
        rw [if_neg hlen0, if_neg hp0]
        simp only [renderLineActual]
        rw [heqA]
      · simp only [List.length_append, List.length_cons, List.length_nil]
        rw [if_neg (by omega)]
        omega
      · intro jj hjj
        simp only []
        rw [segBlock_snoc _ _ _ _ _ (by rw [halenA]; exact segStart_le_len _ _ _)
          (by rw [halenA]; exact segEnd_le_len _ _ _)]
        rw [haF]
        exact hfacts jj hjj

/-- Witness for C4 at the truncation-at-segment-start input. -/
theorem claim_C4_witness :
    ∃ r, renderLine ⟨['a', 'b'], 4, 1, 2, RenderWhitespace.none, false, false,
        [⟨0, "x"⟩, ⟨1, "y"⟩]⟩ = Except.ok r ∧
      (r.charOffsetInPart.length =
        if (charBreakIndex 2 (['a', 'b'] : List Char).length).toNat <
            (['a', 'b'] : List Char).length then
          min (['a', 'b'] : List Char).length
            (charBreakIndex 2 (['a', 'b'] : List Char).length).toNat + 1
        else (['a', 'b'] : List Char).length + 1) ∧
      (∀ j, j < ([⟨0, "x"⟩, ⟨1, "y"⟩] : List ViewLineToken).length →
        List.Chain' (· ≤ ·)
          (segBlock (['a', 'b'] : List Char).length
            ([⟨0, "x"⟩, ⟨1, "y"⟩] : List ViewLineToken) 0 j
            r.charOffsetInPart) ∧
        (segBlock (['a', 'b'] : List Char).length
            ([⟨0, "x"⟩, ⟨1, "y"⟩] : List ViewLineToken) 0 j
            r.charOffsetInPart ≠ [] →
          (segBlock (['a', 'b'] : List Char).length
              ([⟨0, "x"⟩, ⟨1, "y"⟩] : List ViewLineToken) 0 j
              r.charOffsetInPart).head? = some 0 ∨
            ((charBreakIndex 2 (['a', 'b'] : List Char).length).toNat <
                (['a', 'b'] : List Char).length ∧
              segStart (['a', 'b'] : List Char).length
                ([⟨0, "x"⟩, ⟨1, "y"⟩] : List ViewLineToken) 0 j =
                (charBreakIndex 2 (['a', 'b'] : List Char).length).toNat))) :=
  claim_C4 ⟨['a', 'b'], 4, 1, 2, RenderWhitespace.none, false, false,
      [⟨0, "x"⟩, ⟨1, "y"⟩]⟩
    (by decide) (by decide)
    (by decide) (by decide) (Or.inr (by decide))
